import Mathlib

set_option maxHeartbeats 1000000

/- Shallow embedding of src/audio_cutter.py (henghonglee/audio-splitter).

   Modelling conventions:
   - Python strings are modelled as List Char.
   - Python float values produced by float(...) on decimal literals are
     modelled exactly as decimal rationals, represented by a
     mantissa/exponent pair Dec with value m * 10^e; arithmetic on them is
     exact (the IEEE doubles of the source are idealised to exact arithmetic,
     which is the reading the spec itself uses for its formulas).
   - Python int(x) truncation toward zero is Dec.trunc / Int.tdiv.
   - float("inf")/float("nan") are mapped to parse failure: in every use
     inside parse_time the subsequent int(...) conversion raises on a
     non-finite value, so the observable outcome (an exception) agrees.
   - Numeric-literal underscores (PEP 515) are not modelled.
-/

/-- A char is an ASCII digit (codepoints 48..57). -/
def isDig (c : Char) : Bool := 48 ≤ c.toNat && c.toNat ≤ 57

/-- Numeric value of an ASCII digit char. -/
def digitVal (c : Char) : ℕ := c.toNat - 48

/-- The ASCII digit char of a value below 10. -/
def digitChar (d : ℕ) : Char := Char.ofNat (48 + d)

/-- Value of a big-endian list of digit chars (leading zeros allowed). -/
def digitsToNat (l : List Char) : ℕ := l.foldl (fun a c => 10 * a + digitVal c) 0

/-- Whitespace stripped by Python float()/int() conversion. -/
def isWS (c : Char) : Bool :=
  c == ' ' || c == '\t' || c == '\n' || c == '\r' || c == '\x0b' || c == '\x0c'

/-- Strip leading and trailing whitespace, as Python numeric conversion does. -/
def stripWS (s : List Char) : List Char :=
  ((s.dropWhile isWS).reverse.dropWhile isWS).reverse

/-- An exact decimal value m * 10^e: the model of a finite Python float
    produced from a decimal literal. -/
structure Dec where
  m : ℤ
  e : ℤ
deriving DecidableEq

/-- Multiply a decimal value by a natural constant (exact float multiply
    in the idealised model). -/
def Dec.mulN (d : Dec) (k : ℕ) : Dec := ⟨d.m * k, d.e⟩

/-- Exact sum of two decimal values (align exponents). -/
def Dec.add (a b : Dec) : Dec :=
  if a.e ≤ b.e then ⟨a.m + b.m * 10 ^ (b.e - a.e).toNat, a.e⟩
  else ⟨a.m * 10 ^ (a.e - b.e).toNat + b.m, b.e⟩

/-- Python int(x) on the value m * 10^e: truncation toward zero. -/
def Dec.trunc (d : Dec) : ℤ :=
  if 0 ≤ d.e then d.m * 10 ^ d.e.toNat
  else Int.tdiv d.m (10 ^ (-d.e).toNat)

/-- Rational value denoted by a Dec. -/
def Dec.val (d : Dec) : ℚ := (d.m : ℚ) * 10 ^ d.e

/-- Exponent suffix of a float literal: empty, or e/E followed by an
    optionally signed nonempty digit string.  Returns the exponent. -/
def expDigits (d : List Char) : Option ℤ :=
  if d.isEmpty then none
  else if d.all isDig then some (digitsToNat d : ℤ) else none

def parseExp : List Char → Option ℤ
  | [] => some 0
  | c :: r =>
    if c == 'e' || c == 'E' then
      match r with
      | '+' :: d => expDigits d
      | '-' :: d => (expDigits d).map (fun n => -n)
      | d => expDigits d
    else none

/-- Fraction-and-exponent part of a float literal: ip are the integer
    digits already read, r2 is what follows the "." char. -/
def pyFracExp (ip r2 : List Char) (sign : ℤ) : Option Dec :=
  if ip.isEmpty && (r2.takeWhile isDig).isEmpty then none
  else
    match parseExp (r2.dropWhile isDig) with
    | some ex =>
      some ⟨sign * (digitsToNat (ip ++ r2.takeWhile isDig) : ℤ),
        ex - (r2.takeWhile isDig).length⟩
    | none => none

/-- Body of a Python float literal after sign: digits [. digits] [exp],
    with at least one digit around the point. -/
def pyFloatBody (s : List Char) (sign : ℤ) : Option Dec :=
  match s.dropWhile isDig with
  | '.' :: r2 => pyFracExp (s.takeWhile isDig) r2 sign
  | r1 =>
    if (s.takeWhile isDig).isEmpty then none
    else
      match parseExp r1 with
      | some ex => some ⟨sign * (digitsToNat (s.takeWhile isDig) : ℤ), ex⟩
      | none => none

/-- Every char is an ASCII digit char. -/
def AllDigits (l : List Char) : Prop := ∀ c ∈ l, ∃ d, d < 10 ∧ c = digitChar d

/-- Python float(s) on a decimal literal: strip whitespace, optional sign,
    then the literal body.  none models a ValueError (or a non-finite
    value, see the header comment). -/
def pyFloat (s : List Char) : Option Dec :=
  match stripWS s with
  | [] => pyFloatBody [] 1
  | c :: r =>
    if c = '+' then pyFloatBody r 1
    else if c = '-' then pyFloatBody r (-1)
    else pyFloatBody (c :: r) 1

def pyIntDigits (r : List Char) : Option ℕ :=
  if !r.isEmpty && r.all isDig then some (digitsToNat r) else none

/-- Python int(s) on a string: strip whitespace, optional sign, digits only. -/
def pyIntOfStr (s : List Char) : Option ℤ :=
  match stripWS s with
  | '+' :: r => (pyIntDigits r).map (fun n => (n : ℤ))
  | '-' :: r => (pyIntDigits r).map (fun n => -(n : ℤ))
  | r => (pyIntDigits r).map (fun n => (n : ℤ))

/-- time_str.split on ":" -/
def splitColon : List Char → List (List Char)
  | [] => [[]]
  | c :: rest =>
    match splitColon rest with
    | [] => [[]]
    | p :: ps => if c = ':' then [] :: p :: ps else (c :: p) :: ps

/-- Outcome of parse_time: a returned int, a raised exception, or the
    silent None fall-through. -/
inductive ParseOutcome where
  | value (n : ℤ)
  | err
  | nonVal
deriving DecidableEq

/-- parse_time from src/audio_cutter.py, branch for branch:
    endswith with "s" is tested before "ms", then "m",
    then the colon forms, then a bare float. -/
def parse_time (s : List Char) : ParseOutcome :=
  if s.getLast? = some 's' then
    match pyFloat s.dropLast with
    | some d => .value ((d.mulN 1000).trunc)
    | none => .err
  else if s.getLast? = some 's' ∧ s.dropLast.getLast? = some 'm' then
    match pyIntOfStr (s.dropLast.dropLast) with
    | some n => .value n
    | none => .err
  else if s.getLast? = some 'm' then
    match pyFloat s.dropLast with
    | some d => .value ((d.mulN 60000).trunc)
    | none => .err
  else if ':' ∈ s then
    match splitColon s with
    | [a, b] =>
      match pyFloat a, pyFloat b with
      | some da, some db => .value (((da.mulN 60000).add (db.mulN 1000)).trunc)
      | _, _ => .err
    | [a, b, c] =>
      match pyFloat a, pyFloat b, pyFloat c with
      | some da, some db, some dc =>
        .value ((((da.mulN 3600000).add (db.mulN 60000)).add (dc.mulN 1000)).trunc)
      | _, _, _ => .err
    | _ => .nonVal
  else
    match pyFloat s with
    | some d => .value ((d.mulN 1000).trunc)
    | none => .err

/-- Little-endian decimal digits of a natural number. -/
def natDigitsLE (n : ℕ) : List ℕ :=
  if _h : n < 10 then [n] else n % 10 :: natDigitsLE (n / 10)
termination_by n
decreasing_by exact Nat.div_lt_self (by omega) (by omega)

/-- Decimal string of a natural number. -/
def natStr (n : ℕ) : List Char := ((natDigitsLE n).map digitChar).reverse

/-- Python "%02d" zero padding. -/
def pad2 (n : ℕ) : List Char := if n < 10 then '0' :: natStr n else natStr n

/-- Three fractional digits of "%06.3f", zero padded on the left. -/
def pad3 (n : ℕ) : List Char :=
  if n < 10 then '0' :: '0' :: natStr n
  else if n < 100 then '0' :: natStr n
  else natStr n

/-- format_duration from src/audio_cutter.py under exact arithmetic:
    hours = int(total_seconds // 3600), minutes = int((ts % 3600) // 60),
    seconds = ts % 60 printed as "%06.3f" (the exact value has exactly
    three decimals, so no rounding occurs). -/
def format_duration (v : ℕ) : List Char :=
  if 0 < v / 3600000 then
    pad2 (v / 3600000) ++ ':' ::
      (pad2 ((v % 3600000) / 60000) ++ ':' ::
        (pad2 ((v % 60000) / 1000) ++ '.' :: pad3 (v % 1000)))
  else
    pad2 ((v % 3600000) / 60000) ++ ':' ::
      (pad2 ((v % 60000) / 1000) ++ '.' :: pad3 (v % 1000))

/- ------------------------------------------------------------------ -/
/- The wave-module (raw linear PCM) backend of AudioCutter.            -/
/- ------------------------------------------------------------------ -/

/-- A loaded WAV source in the wave-module fallback backend: the header
    fields read in AudioCutter.__init__ plus the raw sample bytes behind
    them.  data holds the PCM payload that readframes traverses. -/
structure WavFile where
  sample_rate : ℕ
  channels : ℕ
  sample_width : ℕ
  total_frames : ℕ
  data : List ℕ

/-- Bytes per frame: channels * sample width. -/
def WavFile.frameSize (w : WavFile) : ℕ := w.channels * w.sample_width

/-- A wave file is well formed when its payload holds exactly
    total_frames frames. -/
def WavFile.WF (w : WavFile) : Prop :=
  w.data.length = w.total_frames * w.frameSize

instance (w : WavFile) : Decidable w.WF := by
  unfold WavFile.WF; infer_instance

/-- self.duration_ms = int((total_frames / sample_rate) * 1000) under
    exact arithmetic: floor(total_frames * 1000 / sample_rate). -/
def WavFile.duration_ms (w : WavFile) : ℕ := w.total_frames * 1000 / w.sample_rate

/-- int((ms / 1000) * sample_rate) under exact arithmetic: the exact value
    ms * rate / 1000 truncated toward zero. -/
def msToFrame (ms : ℤ) (rate : ℕ) : ℤ := Int.tdiv (ms * rate) 1000

/-- wave_file.setpos(p); wave_file.readframes(n): the n frames (at
    frameSize bytes each) starting at frame p; like the wave module it
    returns fewer when fewer remain. -/
def readFramesAt (w : WavFile) (p n : ℕ) : List ℕ :=
  (w.data.drop (p * w.frameSize)).take (n * w.frameSize)

/-- AudioCutter._wav_cut_from_front. -/
def wav_cut_from_front (w : WavFile) (d : ℤ) : List ℕ :=
  readFramesAt w (msToFrame d w.sample_rate).toNat
    (w.total_frames - (msToFrame d w.sample_rate).toNat)

/-- AudioCutter._wav_cut_from_back. -/
def wav_cut_from_back (w : WavFile) (d : ℤ) : List ℕ :=
  readFramesAt w 0 (w.total_frames - (msToFrame d w.sample_rate).toNat)

/-- AudioCutter._wav_cut_from_middle: the part before the cut, then the
    part after it, plainly concatenated. -/
def wav_cut_from_middle (w : WavFile) (s e : ℤ) : List ℕ :=
  readFramesAt w 0 (msToFrame s w.sample_rate).toNat ++
    readFramesAt w (msToFrame e w.sample_rate).toNat
      (w.total_frames - (msToFrame e w.sample_rate).toNat)

/-- AudioCutter._wav_extract_segment. -/
def wav_extract_segment (w : WavFile) (s e : ℤ) : List ℕ :=
  readFramesAt w (msToFrame s w.sample_rate).toNat
    ((msToFrame e w.sample_rate).toNat - (msToFrame s w.sample_rate).toNat)

/-- AudioCutter.cut_from_front on the wave backend; none models the
    raised ValueError. -/
def cut_from_front (w : WavFile) (d : ℤ) : Option (List ℕ) :=
  if d ≤ 0 then none
  else if (w.duration_ms : ℤ) ≤ d then none
  else some (wav_cut_from_front w d)

/-- AudioCutter.cut_from_back on the wave backend. -/
def cut_from_back (w : WavFile) (d : ℤ) : Option (List ℕ) :=
  if d ≤ 0 then none
  else if (w.duration_ms : ℤ) ≤ d then none
  else some (wav_cut_from_back w d)

/-- AudioCutter.cut_from_middle on the wave backend. -/
def cut_from_middle (w : WavFile) (s e : ℤ) : Option (List ℕ) :=
  if s < 0 ∨ e < 0 then none
  else if e ≤ s then none
  else if (w.duration_ms : ℤ) < e then none
  else some (wav_cut_from_middle w s e)

/-- AudioCutter.extract_segment on the wave backend. -/
def extract_segment (w : WavFile) (s e : ℤ) : Option (List ℕ) :=
  if s < 0 ∨ e < 0 then none
  else if e ≤ s then none
  else if (w.duration_ms : ℤ) < e then none
  else some (wav_extract_segment w s e)

/- ------------------------------------------------------------------ -/
/- save_audio on the wave backend.                                     -/
/- ------------------------------------------------------------------ -/

/-- ASCII lowercasing, as str.lower() acts on the chars involved here. -/
def lowerC (c : Char) : Char :=
  if 65 ≤ c.toNat ∧ c.toNat ≤ 90 then Char.ofNat (c.toNat + 32) else c

/-- str(output_path).lower().endswith(".wav"). -/
def endsWithDotWavCI (s : List Char) : Prop :=
  (s.map lowerC).reverse.take 4 = ['v', 'a', 'w', '.']

instance (s : List Char) : Decidable (endsWithDotWavCI s) := by
  unfold endsWithDotWavCI; infer_instance

/-- path.split on "/". -/
def splitSlash : List Char → List (List Char)
  | [] => [[]]
  | c :: rest =>
    match splitSlash rest with
    | [] => [[]]
    | p :: ps => if c = '/' then [] :: p :: ps else (c :: p) :: ps

/-- PurePosixPath component parsing: empty segments and "." entries are
    dropped; ".." entries are kept. -/
def pathSegs (p : List Char) : List (List Char) :=
  (splitSlash p).filter (fun seg => !seg.isEmpty && !(seg == ['.']))

/-- PurePosixPath root: exactly two leading slashes give the
    POSIX-reserved "//" root, any other positive number of leading
    slashes gives "/", no leading slash gives none. -/
def pathRoot (p : List Char) : List Char :=
  match p with
  | '/' :: '/' :: [] => ['/', '/']
  | '/' :: '/' :: c :: _ => if c = '/' then ['/'] else ['/', '/']
  | '/' :: _ => ['/']
  | _ => []

/-- "/".join of the parsed components. -/
def joinSlash : List (List Char) → List Char
  | [] => []
  | [a] => a
  | a :: b :: rest => a ++ '/' :: joinSlash (b :: rest)

/-- str(PurePosixPath(...)) rebuilt from root and components; the empty
    relative path prints as ".". -/
def pathStr (root : List Char) (segs : List (List Char)) : List Char :=
  if root.isEmpty && segs.isEmpty then ['.']
  else root ++ joinSlash segs

/-- Scan the reversed name for the dot starting its extension: the first
    dot from the end, provided it is not the leading char of the name.
    (The caller has already excluded a dot in the final position.) -/
def findSuffixRev : List Char → Option (List Char)
  | [] => none
  | '.' :: rest => if rest.isEmpty then none else some rest
  | _ :: rest => findSuffixRev rest

/-- The name with its pathlib suffix removed.  Python takes the suffix
    from name.rfind of the dot only when 0 < i < len(name) - 1: a name
    ending in a dot has no suffix (so with_suffix appends, giving for
    example "a." -> "a..wav"), and a leading dot alone is not a suffix. -/
def stripSuffixName (name : List Char) : List Char :=
  match name.reverse with
  | '.' :: _ => name
  | rev =>
    match findSuffixRev rev with
    | some restRev => restRev.reverse
    | none => name

/-- What save_audio writes: the path used and the container produced. -/
inductive Container where
  | wav
  | other
deriving DecidableEq

structure Saved where
  path : List Char
  container : Container
deriving DecidableEq

/-- AudioCutter.save_audio on the wave backend: when str(output_path)
    does not already end in ".wav" (case-insensitively), the extension is
    replaced via Path.with_suffix(".wav") - which raises ValueError when
    the path has an empty final component (for example "" or "."),
    modelled as none, before anything is written; otherwise the wave
    module writes a linear-PCM (WAV) container.  The format argument is
    never consulted.  Environmental I/O failures of wave.open are not
    modelled. -/
def save_audio_wave (out : List Char) (fmt : Option (List Char)) : Option Saved :=
  if endsWithDotWavCI (pathStr (pathRoot out) (pathSegs out)) then
    some ⟨pathStr (pathRoot out) (pathSegs out), .wav⟩
  else
    match (pathSegs out).reverse with
    | [] => none
    | name :: parentsRev =>
      some ⟨pathStr (pathRoot out)
        (parentsRev.reverse ++ [stripSuffixName name ++ ['.', 'w', 'a', 'v']]), .wav⟩

/- ------------------------------------------------------------------ -/
/- The list of accepted input forms of the spec (for claim C2).        -/
/- ------------------------------------------------------------------ -/

/-- Modelled from the spec: "a string in one of the forms ⟨float⟩s,
    ⟨int⟩ms, ⟨float⟩m, MM:SS[.frac], HH:MM:SS[.frac], or a bare float".
    This is deliberately a superset of the literal listed forms: the
    colon-separated fields are read as full Python floats rather than
    digit-only MM/HH/SS fields, so specAcceptedB s = false is the
    stronger statement that s is outside even that enlarged family
    (hence outside the listed forms of the spec a fortiori), which is the
    direction the C2 finding needs. -/
def specAcceptedB (s : List Char) : Bool :=
  (decide (s.getLast? = some 's') && (pyFloat s.dropLast).isSome)
  || (decide (s.getLast? = some 's') && decide (s.dropLast.getLast? = some 'm')
        && (pyIntOfStr (s.dropLast.dropLast)).isSome)
  || (decide (s.getLast? = some 'm') && (pyFloat s.dropLast).isSome)
  || (match splitColon s with
      | [a, b] => (pyFloat a).isSome && (pyFloat b).isSome
      | [a, b, c] => (pyFloat a).isSome && (pyFloat b).isSome && (pyFloat c).isSome
      | _ => false)
  || (pyFloat s).isSome

/- ------------------------------------------------------------------ -/
/- Concrete sample data for witnesses.                                 -/
/- ------------------------------------------------------------------ -/

/-- A 10-frame mono 8-bit WAV source at 1000 Hz (1 frame per ms). -/
def sampleWav : WavFile :=
  { sample_rate := 1000
    channels := 1
    sample_width := 1
    total_frames := 10
    data := [10, 11, 12, 13, 14, 15, 16, 17, 18, 19] }

example : sampleWav.WF := by decide
example : sampleWav.duration_ms = 10 := by decide
example : cut_from_front sampleWav 4 = some [14, 15, 16, 17, 18, 19] := by decide
example : cut_from_back sampleWav 4 = some [10, 11, 12, 13, 14, 15] := by decide
example : cut_from_middle sampleWav 2 5 = some [10, 11, 15, 16, 17, 18, 19] := by decide
example : extract_segment sampleWav 2 5 = some [12, 13, 14] := by decide
example : cut_from_front sampleWav 10 = none := by decide
example : cut_from_middle sampleWav 5 5 = none := by decide
example : save_audio_wave ['a', '.', 'm', 'p', '3'] none =
    some ⟨['a', '.', 'w', 'a', 'v'], .wav⟩ := by decide
example : save_audio_wave ['a', '.', 'W', 'A', 'V'] none =
    some ⟨['a', '.', 'W', 'A', 'V'], .wav⟩ := by decide
example : save_audio_wave ['a', '.'] none =
    some ⟨['a', '.', '.', 'w', 'a', 'v'], .wav⟩ := by decide
example : save_audio_wave ['.', '.'] none =
    some ⟨['.', '.', '.', 'w', 'a', 'v'], .wav⟩ := by decide
example : save_audio_wave ['d', '/', '/', 'x'] none =
    some ⟨['d', '/', 'x', '.', 'w', 'a', 'v'], .wav⟩ := by decide
example : save_audio_wave [] none = none := by decide
example : save_audio_wave ['.'] none = none := by decide
example : specAcceptedB ['1', ':', '2', ':', '3', ':', '4'] = false := by decide

example : parse_time ['1', ':', '3', '0'] = .value 90000 := by decide
example : parse_time ['5', 's'] = .value 5000 := by decide
example : parse_time ['5', '0', '0', 'm', 's'] = .err := by decide
example : parse_time ['1', ':', '2', '3', ':', '4', '5'] = .value 5025000 := by decide
example : parse_time ['1', ':', '2', ':', '3', ':', '4'] = .nonVal := by decide
example : parse_time ['7', '5', '.', '5'] = .value 75500 := by decide
example : parse_time ['1', '5', 'm'] = .value 900000 := by decide

/- ------------------------------------------------------------------ -/
/- Arithmetic facts about the ms-to-frame conversion.                  -/
/- ------------------------------------------------------------------ -/

theorem msToFrame_eq_ediv {ms : ℤ} (rate : ℕ) (hm : 0 ≤ ms) :
    msToFrame ms rate = ms * rate / 1000 :=
  Int.tdiv_eq_ediv (by positivity) (by norm_num)

theorem msToFrame_nonneg {ms : ℤ} (rate : ℕ) (hm : 0 ≤ ms) : 0 ≤ msToFrame ms rate :=
  Int.tdiv_nonneg (by positivity) (by norm_num)

theorem msToFrame_mono {a b : ℤ} (rate : ℕ) (ha : 0 ≤ a) (hab : a ≤ b) :
    msToFrame a rate ≤ msToFrame b rate := by
  rw [msToFrame_eq_ediv rate ha, msToFrame_eq_ediv rate (le_trans ha hab)]
  exact Int.ediv_le_ediv (by norm_num) (mul_le_mul_of_nonneg_right hab (by positivity))

theorem duration_mul_le (w : WavFile) :
    w.duration_ms * w.sample_rate ≤ w.total_frames * 1000 :=
  Nat.div_mul_le_self _ _

theorem msToFrame_le_total (w : WavFile) {ms : ℤ} (hm : 0 ≤ ms)
    (hd : ms ≤ (w.duration_ms : ℤ)) :
    msToFrame ms w.sample_rate ≤ (w.total_frames : ℤ) := by
  have h1 : (w.duration_ms : ℤ) * w.sample_rate ≤ (w.total_frames : ℤ) * 1000 := by
    exact_mod_cast duration_mul_le w
  have h2 : ms * (w.sample_rate : ℤ) ≤ (w.total_frames : ℤ) * 1000 :=
    le_trans (mul_le_mul_of_nonneg_right hd (by positivity)) h1
  have h0 : 0 ≤ ms * (w.sample_rate : ℤ) := by positivity
  rw [msToFrame_eq_ediv _ hm]
  omega

theorem natFrame_le_total (w : WavFile) {ms : ℤ} (hm : 0 ≤ ms)
    (hd : ms ≤ (w.duration_ms : ℤ)) :
    (msToFrame ms w.sample_rate).toNat ≤ w.total_frames := by
  have := msToFrame_le_total w hm hd; omega

theorem natFrame_mono {a b : ℤ} (rate : ℕ) (ha : 0 ≤ a) (hab : a ≤ b) :
    (msToFrame a rate).toNat ≤ (msToFrame b rate).toNat := by
  have := msToFrame_mono rate ha hab
  have := msToFrame_nonneg rate ha
  omega

/-- A read of all frames from p to the end is the byte tail from p. -/
theorem readFramesAt_take_all (w : WavFile) (hw : w.WF) {p : ℕ}
    (hp : p ≤ w.total_frames) :
    readFramesAt w p (w.total_frames - p) = w.data.drop (p * w.frameSize) := by
  unfold readFramesAt
  apply List.take_of_length_le
  rw [List.length_drop, hw, Nat.sub_mul]

/-- A read of n frames from frame 0 is the byte head of n frames. -/
theorem readFramesAt_zero (w : WavFile) (n : ℕ) :
    readFramesAt w 0 n = w.data.take (n * w.frameSize) := by
  unfold readFramesAt
  rw [Nat.zero_mul, List.drop_zero]

/-- C3: the guards of cut_from_front / cut_from_back reject exactly
    d ≤ 0 and d ≥ duration; on valid d the front cut is the byte tail
    from frame(d) and the back cut is the byte head of total − frame(d)
    frames. -/
theorem cut_front_back_correct (w : WavFile) (d : ℤ) (hw : w.WF) :
    (cut_from_front w d = none ↔ d ≤ 0 ∨ (w.duration_ms : ℤ) ≤ d) ∧
    (cut_from_back w d = none ↔ d ≤ 0 ∨ (w.duration_ms : ℤ) ≤ d) ∧
    (0 < d → d < (w.duration_ms : ℤ) →
      cut_from_front w d =
        some (w.data.drop ((msToFrame d w.sample_rate).toNat * w.frameSize)) ∧
      cut_from_back w d =
        some (w.data.take
          ((w.total_frames - (msToFrame d w.sample_rate).toNat) * w.frameSize))) := by
  refine ⟨?_, ?_, ?_⟩
  · unfold cut_from_front
    split_ifs with h1 h2 <;> simp <;> omega
  · unfold cut_from_back
    split_ifs with h1 h2 <;> simp <;> omega
  · intro h1 h2
    have hsf : (msToFrame d w.sample_rate).toNat ≤ w.total_frames :=
      natFrame_le_total w (le_of_lt h1) (le_of_lt h2)
    constructor
    · unfold cut_from_front
      rw [if_neg (by omega), if_neg (by omega)]
      unfold wav_cut_from_front
      rw [readFramesAt_take_all w hw hsf]
    · unfold cut_from_back
      rw [if_neg (by omega), if_neg (by omega)]
      unfold wav_cut_from_back
      rw [readFramesAt_zero]

theorem cut_front_back_correct_witness :
    sampleWav.WF ∧
    ((cut_from_front sampleWav 4 = none ↔
        (4 : ℤ) ≤ 0 ∨ (sampleWav.duration_ms : ℤ) ≤ 4) ∧
      (cut_from_back sampleWav 4 = none ↔
        (4 : ℤ) ≤ 0 ∨ (sampleWav.duration_ms : ℤ) ≤ 4) ∧
      ((0 : ℤ) < 4 → (4 : ℤ) < (sampleWav.duration_ms : ℤ) →
        cut_from_front sampleWav 4 =
          some (sampleWav.data.drop
            ((msToFrame 4 sampleWav.sample_rate).toNat * sampleWav.frameSize)) ∧
        cut_from_back sampleWav 4 =
          some (sampleWav.data.take
            ((sampleWav.total_frames - (msToFrame 4 sampleWav.sample_rate).toNat) *
              sampleWav.frameSize)))) :=
  ⟨by decide, cut_front_back_correct sampleWav 4 (by decide)⟩

/-- C4: the guards of cut_from_middle / extract_segment reject exactly
    start < 0, end < 0, start ≥ end and end > duration; on valid
    boundaries cut_from_middle is the concatenation of [0,start) and
    [end,total) and extract_segment is the segment [start,end). -/
theorem cut_middle_extract_correct (w : WavFile) (s e : ℤ) (hw : w.WF) :
    (cut_from_middle w s e = none ↔
      s < 0 ∨ e < 0 ∨ e ≤ s ∨ (w.duration_ms : ℤ) < e) ∧
    (extract_segment w s e = none ↔
      s < 0 ∨ e < 0 ∨ e ≤ s ∨ (w.duration_ms : ℤ) < e) ∧
    (0 ≤ s → s < e → e ≤ (w.duration_ms : ℤ) →
      cut_from_middle w s e =
        some (w.data.take ((msToFrame s w.sample_rate).toNat * w.frameSize) ++
          w.data.drop ((msToFrame e w.sample_rate).toNat * w.frameSize)) ∧
      extract_segment w s e =
        some ((w.data.take ((msToFrame e w.sample_rate).toNat * w.frameSize)).drop
          ((msToFrame s w.sample_rate).toNat * w.frameSize))) := by
  refine ⟨?_, ?_, ?_⟩
  · unfold cut_from_middle
    split_ifs with h1 h2 h3 <;> simp <;> omega
  · unfold extract_segment
    split_ifs with h1 h2 h3 <;> simp <;> omega
  · intro h1 h2 h3
    have hef : (msToFrame e w.sample_rate).toNat ≤ w.total_frames :=
      natFrame_le_total w (by omega) h3
    constructor
    · unfold cut_from_middle
      rw [if_neg (by omega), if_neg (by omega), if_neg (by omega)]
      unfold wav_cut_from_middle
      rw [readFramesAt_zero, readFramesAt_take_all w hw hef]
    · unfold extract_segment
      rw [if_neg (by omega), if_neg (by omega), if_neg (by omega)]
      unfold wav_extract_segment readFramesAt
      rw [List.drop_take, Nat.sub_mul]

theorem cut_middle_extract_correct_witness :
    sampleWav.WF ∧
    ((cut_from_middle sampleWav 2 7 = none ↔
        (2 : ℤ) < 0 ∨ (7 : ℤ) < 0 ∨ (7 : ℤ) ≤ 2 ∨ (sampleWav.duration_ms : ℤ) < 7) ∧
      (extract_segment sampleWav 2 7 = none ↔
        (2 : ℤ) < 0 ∨ (7 : ℤ) < 0 ∨ (7 : ℤ) ≤ 2 ∨ (sampleWav.duration_ms : ℤ) < 7) ∧
      ((0 : ℤ) ≤ 2 → (2 : ℤ) < 7 → (7 : ℤ) ≤ (sampleWav.duration_ms : ℤ) →
        cut_from_middle sampleWav 2 7 =
          some (sampleWav.data.take
              ((msToFrame 2 sampleWav.sample_rate).toNat * sampleWav.frameSize) ++
            sampleWav.data.drop
              ((msToFrame 7 sampleWav.sample_rate).toNat * sampleWav.frameSize)) ∧
        extract_segment sampleWav 2 7 =
          some ((sampleWav.data.take
              ((msToFrame 7 sampleWav.sample_rate).toNat * sampleWav.frameSize)).drop
            ((msToFrame 2 sampleWav.sample_rate).toNat * sampleWav.frameSize)))) :=
  ⟨by decide, cut_middle_extract_correct sampleWav 2 7 (by decide)⟩

/-- C5: on valid boundaries, extracted frames plus remaining frames equal
    the total frame count exactly (so in particular within one frame). -/
theorem extract_middle_frames_total (w : WavFile) (s e : ℤ) (hw : w.WF)
    (hfs : 0 < w.frameSize) (hs : 0 ≤ s) (hse : s < e)
    (he : e ≤ (w.duration_ms : ℤ)) :
    (wav_extract_segment w s e).length / w.frameSize +
      (wav_cut_from_middle w s e).length / w.frameSize = w.total_frames := by
  have hse2 : (msToFrame s w.sample_rate).toNat ≤ (msToFrame e w.sample_rate).toNat :=
    natFrame_mono _ hs (le_of_lt hse)
  have hef : (msToFrame e w.sample_rate).toNat ≤ w.total_frames :=
    natFrame_le_total w (by omega) he
  have hsf : (msToFrame s w.sample_rate).toNat ≤ w.total_frames := le_trans hse2 hef
  have hlen1 : (wav_extract_segment w s e).length =
      ((msToFrame e w.sample_rate).toNat - (msToFrame s w.sample_rate).toNat) *
        w.frameSize := by
    unfold wav_extract_segment readFramesAt
    rw [List.length_take, List.length_drop, hw, ← Nat.sub_mul]
    exact min_eq_left (mul_le_mul_right' (by omega) w.frameSize)
  have hlen2 : (wav_cut_from_middle w s e).length =
      ((msToFrame s w.sample_rate).toNat +
        (w.total_frames - (msToFrame e w.sample_rate).toNat)) * w.frameSize := by
    unfold wav_cut_from_middle readFramesAt
    rw [List.length_append, List.length_take, List.length_take, List.length_drop,
      List.length_drop, hw, Nat.zero_mul, Nat.sub_zero, ← Nat.sub_mul, Nat.add_mul]
    congr 1
    · exact min_eq_left (mul_le_mul_right' hsf w.frameSize)
    · exact min_eq_left (mul_le_mul_right' (by omega) w.frameSize)
  rw [hlen1, hlen2, Nat.mul_div_cancel _ hfs, Nat.mul_div_cancel _ hfs]
  omega

theorem extract_middle_frames_total_witness :
    sampleWav.WF ∧ 0 < sampleWav.frameSize ∧ (0 : ℤ) ≤ 2 ∧ (2 : ℤ) < 7 ∧
      (7 : ℤ) ≤ (sampleWav.duration_ms : ℤ) ∧
      (wav_extract_segment sampleWav 2 7).length / sampleWav.frameSize +
        (wav_cut_from_middle sampleWav 2 7).length / sampleWav.frameSize =
          sampleWav.total_frames :=
  ⟨by decide, by decide, by decide, by decide, by decide,
    extract_middle_frames_total sampleWav 2 7 (by decide) (by decide) (by decide)
      (by decide) (by decide)⟩

/-- C6: the conversion used by every raw-PCM helper equals
    floor(ms / 1000 * sampleRate) for non-negative ms. -/
theorem msToFrame_floor (ms : ℤ) (rate : ℕ) (hm : 0 ≤ ms) (hr : 0 < rate) :
    msToFrame ms rate = ⌊(ms : ℚ) / 1000 * (rate : ℚ)⌋ := by
  have h : (ms : ℚ) / 1000 * (rate : ℚ) = ((ms * (rate : ℤ) : ℤ) : ℚ) / ((1000 : ℕ) : ℚ) := by
    push_cast; ring
  rw [msToFrame_eq_ediv rate hm, h, Rat.floor_intCast_div_natCast]
  norm_num

theorem msToFrame_floor_witness :
    (0 : ℤ) ≤ 7 ∧ 0 < 1000 ∧
      msToFrame 7 1000 = ⌊(7 : ℚ) / 1000 * ((1000 : ℕ) : ℚ)⌋ :=
  ⟨by decide, by decide, msToFrame_floor 7 1000 (by decide) (by decide)⟩

/-- Appending ".wav" always yields a path whose lowercased form ends in
    ".wav". -/
theorem endsWithDotWavCI_append (q : List Char) :
    endsWithDotWavCI (q ++ ['.', 'w', 'a', 'v']) := by
  unfold endsWithDotWavCI
  rw [List.map_append, List.reverse_append]
  rfl

theorem pathRoot_cases (p : List Char) :
    pathRoot p = [] ∨ pathRoot p = ['/'] ∨ pathRoot p = ['/', '/'] := by
  unfold pathRoot
  split
  · simp
  · split_ifs <;> simp
  · simp
  · simp

theorem endsWithDotWavCI_pathStr_nil (root : List Char)
    (h : root = [] ∨ root = ['/'] ∨ root = ['/', '/']) :
    ¬ endsWithDotWavCI (pathStr root []) := by
  rcases h with rfl | rfl | rfl <;> decide

theorem joinSlash_concat (xs : List (List Char)) (a : List Char) :
    ∃ q, joinSlash (xs ++ [a]) = q ++ a := by
  induction xs with
  | nil => exact ⟨[], rfl⟩
  | cons x xs ih =>
    cases xs with
    | nil => exact ⟨x ++ ['/'], by simp [joinSlash]⟩
    | cons y ys =>
      obtain ⟨q, hq⟩ := ih
      refine ⟨x ++ '/' :: q, ?_⟩
      simp only [List.cons_append, List.append_eq, joinSlash] at hq ⊢
      rw [hq]
      simp

/-- The path written by the with_suffix branch ends in ".wav". -/
theorem endsWithDotWavCI_newPath (root : List Char) (parents : List (List Char))
    (nm : List Char) :
    endsWithDotWavCI (pathStr root (parents ++ [nm ++ ['.', 'w', 'a', 'v']])) := by
  unfold pathStr
  rw [if_neg (by simp)]
  obtain ⟨q, hq⟩ := joinSlash_concat parents (nm ++ ['.', 'w', 'a', 'v'])
  rw [hq, show root ++ (q ++ (nm ++ ['.', 'w', 'a', 'v'])) =
    (root ++ q ++ nm) ++ ['.', 'w', 'a', 'v'] by simp [List.append_assoc]]
  exact endsWithDotWavCI_append _

/-- C7 (amended): the format override is never consulted; when the
    requested name has a non-empty final path component the save succeeds
    and produces a WAV (linear-PCM) container at a path ending ".wav"
    case-insensitively; it fails (with_suffix raises ValueError, nothing
    is written) exactly when the final component is empty. -/
theorem save_audio_wave_correct (out : List Char) (fmt : Option (List Char)) :
    save_audio_wave out fmt = save_audio_wave out none ∧
    (save_audio_wave out fmt = none ↔ pathSegs out = []) ∧
    (∀ sv, save_audio_wave out fmt = some sv →
      sv.container = Container.wav ∧ endsWithDotWavCI sv.path) := by
  refine ⟨rfl, ?_, ?_⟩
  · unfold save_audio_wave
    split_ifs with h
    · constructor
      · intro hc
        exact absurd hc (by simp)
      · intro hseg
        rw [hseg] at h
        exact absurd h (endsWithDotWavCI_pathStr_nil _ (pathRoot_cases out))
    · rcases hrev : (pathSegs out).reverse with _ | ⟨nm, parentsRev⟩
      · have hnil : pathSegs out = [] := by
          have := congrArg List.reverse hrev
          simpa using this
        simp [hnil]
      · have hne : pathSegs out ≠ [] := by
          intro hh
          rw [hh] at hrev
          exact absurd hrev (by simp)
        simp [hne]
  · intro sv hsv
    unfold save_audio_wave at hsv
    split_ifs at hsv with h
    · obtain rfl := Option.some.inj hsv
      exact ⟨rfl, h⟩
    · rcases hrev : (pathSegs out).reverse with _ | ⟨nm, parentsRev⟩
      · rw [hrev] at hsv
        exact absurd hsv (by simp)
      · rw [hrev] at hsv
        simp only [Option.some.injEq] at hsv
        obtain rfl := hsv
        exact ⟨rfl, endsWithDotWavCI_newPath _ _ _⟩

theorem save_audio_wave_correct_witness :
    save_audio_wave ['a', '.', 'm', 'p', '3'] (some ['o', 'g', 'g']) =
        save_audio_wave ['a', '.', 'm', 'p', '3'] none ∧
      (save_audio_wave ['a', '.', 'm', 'p', '3'] (some ['o', 'g', 'g']) = none ↔
        pathSegs ['a', '.', 'm', 'p', '3'] = []) ∧
      ((Saved.mk ['a', '.', 'w', 'a', 'v'] Container.wav).container = Container.wav ∧
        endsWithDotWavCI (Saved.mk ['a', '.', 'w', 'a', 'v'] Container.wav).path) :=
  ⟨(save_audio_wave_correct ['a', '.', 'm', 'p', '3'] (some ['o', 'g', 'g'])).1,
    (save_audio_wave_correct ['a', '.', 'm', 'p', '3'] (some ['o', 'g', 'g'])).2.1,
    (save_audio_wave_correct ['a', '.', 'm', 'p', '3'] (some ['o', 'g', 'g'])).2.2
      (Saved.mk ['a', '.', 'w', 'a', 'v'] Container.wav) (by decide)⟩

/-- C7 counterexample: for the output names "" and "." the raw-PCM save
    path produces no WAV at all: Path.with_suffix(".wav") raises
    ValueError on the empty final component before anything is written. -/
theorem save_audio_empty_name :
    save_audio_wave [] (some ['m', 'p', '3']) = none ∧
    save_audio_wave ['.'] none = none := by decide

/-- C9: a valid raw-PCM extraction returns exactly
    frameCount * channels * sampleWidth bytes, taken from the byte offset
    of the start frame; the middle cut is the plain concatenation of the
    two kept reads. -/
theorem raw_extract_bytes (w : WavFile) (s e : ℤ) (hw : w.WF)
    (hs : 0 ≤ s) (hse : s < e) (he : e ≤ (w.duration_ms : ℤ)) :
    (wav_extract_segment w s e).length =
      ((msToFrame e w.sample_rate).toNat - (msToFrame s w.sample_rate).toNat) *
        (w.channels * w.sample_width) ∧
    wav_extract_segment w s e =
      (w.data.drop ((msToFrame s w.sample_rate).toNat * w.frameSize)).take
        (((msToFrame e w.sample_rate).toNat - (msToFrame s w.sample_rate).toNat) *
          w.frameSize) ∧
    wav_cut_from_middle w s e =
      readFramesAt w 0 (msToFrame s w.sample_rate).toNat ++
        readFramesAt w (msToFrame e w.sample_rate).toNat
          (w.total_frames - (msToFrame e w.sample_rate).toNat) := by
  have hse2 : (msToFrame s w.sample_rate).toNat ≤ (msToFrame e w.sample_rate).toNat :=
    natFrame_mono _ hs (le_of_lt hse)
  have hef : (msToFrame e w.sample_rate).toNat ≤ w.total_frames :=
    natFrame_le_total w (by omega) he
  refine ⟨?_, rfl, rfl⟩
  unfold wav_extract_segment readFramesAt
  rw [List.length_take, List.length_drop, hw, ← Nat.sub_mul]
  exact min_eq_left (mul_le_mul_right' (by omega) w.frameSize)

theorem raw_extract_bytes_witness :
    sampleWav.WF ∧ (0 : ℤ) ≤ 2 ∧ (2 : ℤ) < 7 ∧
      (7 : ℤ) ≤ (sampleWav.duration_ms : ℤ) ∧
      ((wav_extract_segment sampleWav 2 7).length =
        ((msToFrame 7 sampleWav.sample_rate).toNat -
            (msToFrame 2 sampleWav.sample_rate).toNat) *
          (sampleWav.channels * sampleWav.sample_width) ∧
      wav_extract_segment sampleWav 2 7 =
        (sampleWav.data.drop
            ((msToFrame 2 sampleWav.sample_rate).toNat * sampleWav.frameSize)).take
          (((msToFrame 7 sampleWav.sample_rate).toNat -
              (msToFrame 2 sampleWav.sample_rate).toNat) * sampleWav.frameSize) ∧
      wav_cut_from_middle sampleWav 2 7 =
        readFramesAt sampleWav 0 (msToFrame 2 sampleWav.sample_rate).toNat ++
          readFramesAt sampleWav (msToFrame 7 sampleWav.sample_rate).toNat
            (sampleWav.total_frames - (msToFrame 7 sampleWav.sample_rate).toNat)) :=
  ⟨by decide, by decide, by decide, by decide,
    raw_extract_bytes sampleWav 2 7 (by decide) (by decide) (by decide) (by decide)⟩

/-- C10: under the validation guards of the operations every computed frame
    index is within the file: non-negative start, start ≤ end, and end at
    most the total frame count, for all four raw-PCM helpers. -/
theorem frame_bounds (w : WavFile) (d s e : ℤ)
    (hd0 : 0 < d) (hdu : d < (w.duration_ms : ℤ))
    (hs : 0 ≤ s) (hse : s < e) (he : e ≤ (w.duration_ms : ℤ)) :
    0 ≤ msToFrame d w.sample_rate ∧
    msToFrame d w.sample_rate ≤ (w.total_frames : ℤ) ∧
    0 ≤ msToFrame s w.sample_rate ∧
    msToFrame s w.sample_rate ≤ msToFrame e w.sample_rate ∧
    msToFrame e w.sample_rate ≤ (w.total_frames : ℤ) :=
  ⟨msToFrame_nonneg _ (le_of_lt hd0),
    msToFrame_le_total w (le_of_lt hd0) (le_of_lt hdu),
    msToFrame_nonneg _ hs,
    msToFrame_mono _ hs (le_of_lt hse),
    msToFrame_le_total w (by omega) he⟩

/-- C1: parse_time on the four examples of the spec.  "1:30", "5s" and
    "1:23:45" give the documented values, but "500ms" raises: the
    endswith('s') branch runs first and float("500m") fails, so the
    dedicated ms branch (and the CLI epilog line "500ms - 500 milliseconds")
    is never reached. -/
theorem parse_time_examples :
    parse_time ['1', ':', '3', '0'] = .value 90000 ∧
    parse_time ['5', 's'] = .value 5000 ∧
    parse_time ['1', ':', '2', '3', ':', '4', '5'] = .value 5025000 ∧
    parse_time ['5', '0', '0', 'm', 's'] = .err := by decide

/-- C2: "1:2:3:4" is in none of the listed input forms (specAcceptedB is
    a superset of them, and even it rejects the string), yet parse_time
    does not fail: the len(parts) if/elif chain has no else, so the
    function silently returns None.  Every other unrecognized input
    raises ValueError and the top-level handler of the program only
    catches FileNotFoundError/ValueError, so the None return is a slip:
    downstream it crashes main with an uncaught TypeError instead of the
    designed one-line error exit the spec describes. -/
theorem parse_time_silent_none :
    specAcceptedB ['1', ':', '2', ':', '3', ':', '4'] = false ∧
    parse_time ['1', ':', '2', ':', '3', ':', '4'] = .nonVal := by decide

/-- Supporting totality lemma: on every string outside specAcceptedB,
    parse_time either raises an error or - only possible in the colon
    branch when the split has a number of parts other than 2 or 3 -
    silently returns None; it never returns a value there.  (Strings such
    as ":::s" with four colon-parts still end in the s branch and err, so
    the None outcome is a possibility of that fall-through, not its
    characterisation.) -/
theorem parse_time_fails_outside_forms (s : List Char) (h : specAcceptedB s = false) :
    parse_time s = .err ∨
      ((splitColon s).length ≠ 2 ∧ (splitColon s).length ≠ 3 ∧
        parse_time s = .nonVal) := by
  unfold parse_time
  split_ifs with h1 h2 h3 h4
  · rcases hx : pyFloat s.dropLast with _ | d
    · left; rfl
    · have ht : specAcceptedB s = true := by
        unfold specAcceptedB; simp [h1, hx]
      exact Bool.noConfusion (ht.symm.trans h)
  · exact absurd h2.1 h1
  · rcases hx : pyFloat s.dropLast with _ | d
    · left; rfl
    · have ht : specAcceptedB s = true := by
        unfold specAcceptedB; simp [h3, hx]
      exact Bool.noConfusion (ht.symm.trans h)
  · rcases hsp : splitColon s with _ | ⟨a, _ | ⟨b, _ | ⟨c, _ | ⟨d4, rest⟩⟩⟩⟩
    · right
      refine ⟨by simp only [List.length_nil]; omega,
        by simp only [List.length_nil]; omega, rfl⟩
    · right
      refine ⟨by simp only [List.length_cons, List.length_nil]; omega,
        by simp only [List.length_cons, List.length_nil]; omega, rfl⟩
    · rcases hA : pyFloat a with _ | da
      · left; simp [hA]
      · rcases hB : pyFloat b with _ | db
        · left; simp [hA, hB]
        · have ht : specAcceptedB s = true := by
            unfold specAcceptedB; rw [hsp]; simp [hA, hB]
          exact Bool.noConfusion (ht.symm.trans h)
    · rcases hA : pyFloat a with _ | da
      · left; simp [hA]
      · rcases hB : pyFloat b with _ | db
        · left; simp [hA, hB]
        · rcases hC : pyFloat c with _ | dc
          · left; simp [hA, hB, hC]
          · have ht : specAcceptedB s = true := by
              unfold specAcceptedB; rw [hsp]; simp [hA, hB, hC]
            exact Bool.noConfusion (ht.symm.trans h)
    · right
      refine ⟨by simp only [List.length_cons]; omega,
        by simp only [List.length_cons]; omega, rfl⟩
  · rcases hx : pyFloat s with _ | d
    · left; rfl
    · have ht : specAcceptedB s = true := by
        unfold specAcceptedB; simp [hx]
      exact Bool.noConfusion (ht.symm.trans h)

theorem parse_time_fails_outside_forms_witness :
    specAcceptedB ['x'] = false ∧
      (parse_time ['x'] = .err ∨
        ((splitColon ['x']).length ≠ 2 ∧ (splitColon ['x']).length ≠ 3 ∧
          parse_time ['x'] = .nonVal)) :=
  ⟨by decide, parse_time_fails_outside_forms ['x'] (by decide)⟩

theorem frame_bounds_witness :
    (0 : ℤ) < 5 ∧ (5 : ℤ) < (sampleWav.duration_ms : ℤ) ∧ (0 : ℤ) ≤ 2 ∧
      (2 : ℤ) < 7 ∧ (7 : ℤ) ≤ (sampleWav.duration_ms : ℤ) ∧
      (0 ≤ msToFrame 5 sampleWav.sample_rate ∧
        msToFrame 5 sampleWav.sample_rate ≤ (sampleWav.total_frames : ℤ) ∧
        0 ≤ msToFrame 2 sampleWav.sample_rate ∧
        msToFrame 2 sampleWav.sample_rate ≤ msToFrame 7 sampleWav.sample_rate ∧
        msToFrame 7 sampleWav.sample_rate ≤ (sampleWav.total_frames : ℤ)) :=
  ⟨by decide, by decide, by decide, by decide, by decide,
    frame_bounds sampleWav 5 2 7 (by decide) (by decide) (by decide) (by decide)
      (by decide)⟩

/- ------------------------------------------------------------------ -/
/- Round trip of format_duration through parse_time (claim C8).        -/
/- ------------------------------------------------------------------ -/

theorem digitChar_facts (d : ℕ) (h : d < 10) :
    isDig (digitChar d) = true ∧ isWS (digitChar d) = false ∧
    digitVal (digitChar d) = d ∧ digitChar d ≠ ':' ∧ digitChar d ≠ '.' ∧
    digitChar d ≠ '+' ∧ digitChar d ≠ '-' ∧ digitChar d ≠ 's' ∧
    digitChar d ≠ 'm' := by
  interval_cases d <;> exact ⟨rfl, rfl, rfl, by decide, by decide, by decide,
    by decide, by decide, by decide⟩

theorem digitsToNat_acc (l : List Char) (A : ℕ) :
    l.foldl (fun a c => 10 * a + digitVal c) A = A * 10 ^ l.length + digitsToNat l := by
  induction l generalizing A with
  | nil => simp [digitsToNat]
  | cons c t ih =>
    show List.foldl _ (10 * A + digitVal c) t = _
    rw [ih]
    have hdig : digitsToNat (c :: t) = digitVal c * 10 ^ t.length + digitsToNat t := by
      show List.foldl _ (10 * 0 + digitVal c) t = _
      rw [ih]; ring_nf
    rw [hdig]
    simp [List.length_cons, pow_succ]
    ring

theorem digitsToNat_append (l1 l2 : List Char) :
    digitsToNat (l1 ++ l2) = digitsToNat l1 * 10 ^ l2.length + digitsToNat l2 := by
  unfold digitsToNat
  rw [List.foldl_append]
  exact digitsToNat_acc l2 _

theorem natDigitsLE_lt10 (n : ℕ) : ∀ d ∈ natDigitsLE n, d < 10 := by
  induction n using Nat.strong_induction_on with
  | _ n ih =>
    unfold natDigitsLE
    split_ifs with h
    · intro d hd
      simp only [List.mem_singleton] at hd
      omega
    · intro d hd
      rcases List.mem_cons.mp hd with h1 | h2
      · omega
      · exact ih (n / 10) (Nat.div_lt_self (by omega) (by omega)) d h2

theorem natDigitsLE_ne_nil (n : ℕ) : natDigitsLE n ≠ [] := by
  unfold natDigitsLE
  split_ifs <;> simp

theorem digitsToNat_natStr (n : ℕ) : digitsToNat (natStr n) = n := by
  induction n using Nat.strong_induction_on with
  | _ n ih =>
    unfold natStr natDigitsLE
    split_ifs with h
    · show digitsToNat [digitChar n] = n
      show 10 * 0 + digitVal (digitChar n) = n
      rw [(digitChar_facts n h).2.2.1]
      omega
    · rw [List.map_cons, List.reverse_cons, digitsToNat_append]
      have hrec : digitsToNat (((natDigitsLE (n / 10)).map digitChar).reverse) = n / 10 :=
        ih (n / 10) (Nat.div_lt_self (by omega) (by omega))
      rw [show (((natDigitsLE (n / 10)).map digitChar).reverse : List Char) = natStr (n / 10)
          from rfl] at hrec ⊢
      rw [hrec]
      show n / 10 * 10 ^ 1 + digitsToNat [digitChar (n % 10)] = n
      show n / 10 * 10 ^ 1 + (10 * 0 + digitVal (digitChar (n % 10))) = n
      rw [(digitChar_facts (n % 10) (by omega)).2.2.1]
      omega

theorem allDigits_natStr (n : ℕ) : AllDigits (natStr n) := by
  intro c hc
  unfold natStr at hc
  rw [List.mem_reverse, List.mem_map] at hc
  obtain ⟨d, hd, rfl⟩ := hc
  exact ⟨d, natDigitsLE_lt10 n d hd, rfl⟩

theorem allDigits_pad2 (n : ℕ) : AllDigits (pad2 n) := by
  unfold pad2
  split_ifs
  · intro c hc
    rcases List.mem_cons.mp hc with h1 | h2
    · exact ⟨0, by omega, h1⟩
    · exact allDigits_natStr n c h2
  · exact allDigits_natStr n

theorem allDigits_pad3 (n : ℕ) : AllDigits (pad3 n) := by
  unfold pad3
  split_ifs
  · intro c hc
    rcases List.mem_cons.mp hc with h1 | h2
    · exact ⟨0, by omega, h1⟩
    · rcases List.mem_cons.mp h2 with h3 | h4
      · exact ⟨0, by omega, h3⟩
      · exact allDigits_natStr n c h4
  · intro c hc
    rcases List.mem_cons.mp hc with h1 | h2
    · exact ⟨0, by omega, h1⟩
    · exact allDigits_natStr n c h2
  · exact allDigits_natStr n

theorem natStr_ne_nil (n : ℕ) : natStr n ≠ [] := by
  unfold natStr
  simp [natDigitsLE_ne_nil n]

theorem pad2_ne_nil (n : ℕ) : pad2 n ≠ [] := by
  unfold pad2
  split_ifs <;> simp [natStr_ne_nil n]

theorem pad3_ne_nil (n : ℕ) : pad3 n ≠ [] := by
  unfold pad3
  split_ifs <;> simp [natStr_ne_nil n]

theorem digitsToNat_cons_zero (l : List Char) :
    digitsToNat ('0' :: l) = digitsToNat l := rfl

theorem digitsToNat_pad2 (n : ℕ) : digitsToNat (pad2 n) = n := by
  unfold pad2
  split_ifs
  · rw [digitsToNat_cons_zero, digitsToNat_natStr]
  · rw [digitsToNat_natStr]

theorem digitsToNat_pad3 (n : ℕ) : digitsToNat (pad3 n) = n := by
  unfold pad3
  split_ifs
  · rw [digitsToNat_cons_zero, digitsToNat_cons_zero, digitsToNat_natStr]
  · rw [digitsToNat_cons_zero, digitsToNat_natStr]
  · rw [digitsToNat_natStr]

theorem dropWhile_isWS_eq_self (l : List Char) (h : ∀ c ∈ l, isWS c = false) :
    l.dropWhile isWS = l := by
  cases l with
  | nil => rfl
  | cons c t =>
    rw [List.dropWhile_cons, if_neg (by simp [h c (List.mem_cons_self c t)])]

theorem stripWS_eq_self (l : List Char) (h : ∀ c ∈ l, isWS c = false) :
    stripWS l = l := by
  unfold stripWS
  rw [dropWhile_isWS_eq_self l h,
    dropWhile_isWS_eq_self l.reverse (fun c hc => h c (List.mem_reverse.mp hc)),
    List.reverse_reverse]

theorem pyFloat_eq_body (l : List Char) (hWS : ∀ c ∈ l, isWS c = false)
    (hhead : ∀ c, l.head? = some c → c ≠ '+' ∧ c ≠ '-') :
    pyFloat l = pyFloatBody l 1 := by
  unfold pyFloat
  rw [stripWS_eq_self l hWS]
  cases l with
  | nil => rfl
  | cons c t =>
    obtain ⟨h1, h2⟩ := hhead c rfl
    show (if c = '+' then pyFloatBody t 1
      else if c = '-' then pyFloatBody t (-1)
      else pyFloatBody (c :: t) 1) = pyFloatBody (c :: t) 1
    rw [if_neg h1, if_neg h2]

theorem allDigits_ws (l : List Char) (h : AllDigits l) : ∀ c ∈ l, isWS c = false :=
  fun c hc => by
    obtain ⟨d, hd, rfl⟩ := h c hc
    exact (digitChar_facts d hd).2.1

theorem allDigits_dig (l : List Char) (h : AllDigits l) : ∀ c ∈ l, isDig c = true :=
  fun c hc => by
    obtain ⟨d, hd, rfl⟩ := h c hc
    exact (digitChar_facts d hd).1

theorem allDigits_head_not_sign (l : List Char) (h : AllDigits l) :
    ∀ c, l.head? = some c → c ≠ '+' ∧ c ≠ '-' := by
  intro c hc
  have hmem : c ∈ l := by
    cases l with
    | nil => exact absurd hc (by simp)
    | cons x t =>
      simp only [List.head?_cons, Option.some.injEq] at hc
      exact hc ▸ List.mem_cons_self x t
  obtain ⟨d, hd, rfl⟩ := h c hmem
  exact ⟨(digitChar_facts d hd).2.2.2.2.2.1, (digitChar_facts d hd).2.2.2.2.2.2.1⟩

theorem pyFloatBody_digits (l : List Char) (hdig : ∀ c ∈ l, isDig c = true)
    (hne : l ≠ []) :
    pyFloatBody l 1 = some ⟨(digitsToNat l : ℤ), 0⟩ := by
  unfold pyFloatBody
  rw [List.dropWhile_eq_nil_iff.mpr hdig, List.takeWhile_eq_self_iff.mpr hdig]
  show (if l.isEmpty then none
    else match parseExp [] with
      | some ex => some (Dec.mk (1 * (digitsToNat l : ℤ)) ex)
      | none => none) = some ⟨(digitsToNat l : ℤ), 0⟩
  rw [if_neg (by simpa using hne)]
  show some (Dec.mk (1 * (digitsToNat l : ℤ)) 0) = some ⟨(digitsToNat l : ℤ), 0⟩
  rw [one_mul]

theorem pyFloat_digits (l : List Char) (h : AllDigits l) (hne : l ≠ []) :
    pyFloat l = some ⟨(digitsToNat l : ℤ), 0⟩ := by
  rw [pyFloat_eq_body l (allDigits_ws l h) (allDigits_head_not_sign l h)]
  exact pyFloatBody_digits l (allDigits_dig l h) hne

theorem pyFloat_digits_frac (a b : List Char) (ha : AllDigits a) (hb : AllDigits b)
    (hane : a ≠ []) (hbne : b ≠ []) :
    pyFloat (a ++ '.' :: b) = some ⟨(digitsToNat (a ++ b) : ℤ), -(b.length : ℤ)⟩ := by
  have hdigA := allDigits_dig a ha
  have hdigB := allDigits_dig b hb
  have hWS : ∀ c ∈ a ++ '.' :: b, isWS c = false := by
    intro c hc
    rcases List.mem_append.mp hc with h1 | h2
    · exact allDigits_ws a ha c h1
    · rcases List.mem_cons.mp h2 with h3 | h4
      · rw [h3]; rfl
      · exact allDigits_ws b hb c h4
  have hhead : ∀ c, (a ++ '.' :: b).head? = some c → c ≠ '+' ∧ c ≠ '-' := by
    cases a with
    | nil => exact absurd rfl hane
    | cons x t =>
      intro c hc
      simp only [List.cons_append, List.head?_cons, Option.some.injEq] at hc
      exact allDigits_head_not_sign (x :: t) ha c (by rw [List.head?_cons, hc])
  rw [pyFloat_eq_body _ hWS hhead]
  unfold pyFloatBody
  rw [List.dropWhile_append_of_pos hdigA, List.dropWhile_cons,
    if_neg (by decide), List.takeWhile_append_of_pos hdigA, List.takeWhile_cons,
    if_neg (by decide), List.append_nil]
  show pyFracExp a b 1 = some ⟨(digitsToNat (a ++ b) : ℤ), -(b.length : ℤ)⟩
  unfold pyFracExp
  rw [List.takeWhile_eq_self_iff.mpr hdigB, List.dropWhile_eq_nil_iff.mpr hdigB,
    if_neg (by simp [hbne])]
  show some (Dec.mk (1 * (digitsToNat (a ++ b) : ℤ)) ((0 : ℤ) - (b.length : ℤ))) =
    some ⟨(digitsToNat (a ++ b) : ℤ), -(b.length : ℤ)⟩
  rw [one_mul, zero_sub]

theorem natDigitsLE_len1 (n : ℕ) (h : n < 10) : natDigitsLE n = [n] := by
  unfold natDigitsLE
  rw [dif_pos h]

theorem natDigitsLE_step (n : ℕ) (h : ¬ n < 10) :
    natDigitsLE n = n % 10 :: natDigitsLE (n / 10) := by
  conv =>
    left
    rw [natDigitsLE]
  rw [dif_neg h]

theorem natStr_length_2 (n : ℕ) (h1 : 10 ≤ n) (h2 : n < 100) : (natStr n).length = 2 := by
  unfold natStr
  rw [List.length_reverse, List.length_map, natDigitsLE_step n (by omega),
    natDigitsLE_len1 (n / 10) (by omega)]
  rfl

theorem natStr_length_3 (n : ℕ) (h1 : 100 ≤ n) (h2 : n < 1000) : (natStr n).length = 3 := by
  unfold natStr
  rw [List.length_reverse, List.length_map, natDigitsLE_step n (by omega),
    natDigitsLE_step (n / 10) (by omega), natDigitsLE_len1 (n / 10 / 10) (by omega)]
  rfl

theorem pad3_length (n : ℕ) (h : n < 1000) : (pad3 n).length = 3 := by
  unfold pad3
  split_ifs with h1 h2
  · simp [natStr, natDigitsLE_len1 n h1]
  · have h3 := natStr_length_2 n (by omega) h2
    simp [h3]
  · exact natStr_length_3 n (by omega) h

theorem pyFloat_pad2 (n : ℕ) : pyFloat (pad2 n) = some ⟨(n : ℤ), 0⟩ := by
  rw [pyFloat_digits (pad2 n) (allDigits_pad2 n) (pad2_ne_nil n), digitsToNat_pad2]

theorem pyFloat_sec (ss ff : ℕ) (hff : ff < 1000) :
    pyFloat (pad2 ss ++ '.' :: pad3 ff) =
      some ⟨((ss * 1000 + ff : ℕ) : ℤ), -3⟩ := by
  rw [pyFloat_digits_frac _ _ (allDigits_pad2 ss) (allDigits_pad3 ff)
    (pad2_ne_nil ss) (pad3_ne_nil ff), digitsToNat_append, digitsToNat_pad2,
    digitsToNat_pad3, pad3_length ff hff]
  norm_num

theorem splitColon_ne_nil (l : List Char) : splitColon l ≠ [] := by
  induction l with
  | nil => simp [splitColon]
  | cons c t ih =>
    rcases hsc : splitColon t with _ | ⟨p, ps⟩
    · exact absurd hsc ih
    · simp only [splitColon, hsc]
      split_ifs <;> simp

theorem splitColon_no_colon (l : List Char) (h : ':' ∉ l) : splitColon l = [l] := by
  induction l with
  | nil => rfl
  | cons c t ih =>
    have hc : c ≠ ':' := fun hh => h (hh ▸ List.mem_cons_self c t)
    have ht : ':' ∉ t := fun hh => h (List.mem_cons_of_mem c hh)
    simp only [splitColon, ih ht]
    rw [if_neg hc]

theorem splitColon_append (a b : List Char) (h : ':' ∉ a) :
    splitColon (a ++ ':' :: b) = a :: splitColon b := by
  induction a with
  | nil =>
    rcases hsc : splitColon b with _ | ⟨p, ps⟩
    · exact absurd hsc (splitColon_ne_nil b)
    · simp only [List.nil_append, splitColon, hsc]
      simp
  | cons c t ih =>
    have hc : c ≠ ':' := fun hh => h (hh ▸ List.mem_cons_self c t)
    have ht : ':' ∉ t := fun hh => h (List.mem_cons_of_mem c hh)
    rcases hsc : splitColon (t ++ ':' :: b) with _ | ⟨p, ps⟩
    · exact absurd hsc (splitColon_ne_nil _)
    · have := ih ht
      rw [hsc] at this
      obtain ⟨hp, hps⟩ := List.cons.inj this
      simp only [List.cons_append, splitColon, List.append_eq, hsc]
      rw [if_neg hc, hp, hps]

theorem allDigits_no_colon (l : List Char) (h : AllDigits l) : ':' ∉ l := by
  intro hmem
  obtain ⟨d, hd, hch⟩ := h ':' hmem
  exact (digitChar_facts d hd).2.2.2.1 hch.symm

theorem sec_no_colon (ss ff : ℕ) : ':' ∉ pad2 ss ++ '.' :: pad3 ff := by
  intro hmem
  rcases List.mem_append.mp hmem with h1 | h2
  · exact allDigits_no_colon _ (allDigits_pad2 ss) h1
  · rcases List.mem_cons.mp h2 with h3 | h4
    · exact absurd h3 (by decide)
    · exact allDigits_no_colon _ (allDigits_pad3 ff) h4

theorem format_duration_chars (v : ℕ) :
    ∀ c ∈ format_duration v, c = ':' ∨ c = '.' ∨ ∃ d, d < 10 ∧ c = digitChar d := by
  intro c hc
  unfold format_duration at hc
  split_ifs at hc <;> simp only [List.mem_append, List.mem_cons] at hc
  · rcases hc with h | h | h | h | h | h | h
    · exact .inr (.inr (allDigits_pad2 _ c h))
    · exact .inl h
    · exact .inr (.inr (allDigits_pad2 _ c h))
    · exact .inl h
    · exact .inr (.inr (allDigits_pad2 _ c h))
    · exact .inr (.inl h)
    · exact .inr (.inr (allDigits_pad3 _ c h))
  · rcases hc with h | h | h | h | h
    · exact .inr (.inr (allDigits_pad2 _ c h))
    · exact .inl h
    · exact .inr (.inr (allDigits_pad2 _ c h))
    · exact .inr (.inl h)
    · exact .inr (.inr (allDigits_pad3 _ c h))

theorem format_duration_last_not_s (v : ℕ) :
    ¬ (format_duration v).getLast? = some 's' := by
  intro h
  rcases format_duration_chars v 's' (List.mem_of_getLast?_eq_some h) with
    h1 | h1 | ⟨d, hd, h1⟩
  · exact absurd h1 (by decide)
  · exact absurd h1 (by decide)
  · exact (digitChar_facts d hd).2.2.2.2.2.2.2.1 h1.symm

theorem format_duration_last_not_m (v : ℕ) :
    ¬ (format_duration v).getLast? = some 'm' := by
  intro h
  rcases format_duration_chars v 'm' (List.mem_of_getLast?_eq_some h) with
    h1 | h1 | ⟨d, hd, h1⟩
  · exact absurd h1 (by decide)
  · exact absurd h1 (by decide)
  · exact (digitChar_facts d hd).2.2.2.2.2.2.2.2 h1.symm

theorem dec_combo2 (y z : ℕ) :
    (((Dec.mk (y : ℤ) 0).mulN 60000).add ((Dec.mk (z : ℤ) (-3)).mulN 1000)).trunc =
      (y : ℤ) * 60000 + z := by
  unfold Dec.mulN Dec.add Dec.trunc
  norm_num
  rw [show Int.toNat 3 = 3 from rfl]
  norm_num
  rw [show ((y : ℤ) * 60000 * 1000 + (z : ℤ) * 1000) =
    1000 * ((y : ℤ) * 60000 + z) by ring]
  rw [Int.mul_tdiv_cancel_left _ (by norm_num)]

theorem dec_combo3 (x y z : ℕ) :
    ((((Dec.mk (x : ℤ) 0).mulN 3600000).add ((Dec.mk (y : ℤ) 0).mulN 60000)).add
      ((Dec.mk (z : ℤ) (-3)).mulN 1000)).trunc =
      (x : ℤ) * 3600000 + (y : ℤ) * 60000 + z := by
  unfold Dec.mulN Dec.add Dec.trunc
  norm_num
  rw [show Int.toNat 3 = 3 from rfl]
  norm_num
  rw [show (((x : ℤ) * 3600000 + (y : ℤ) * 60000) * 1000 + (z : ℤ) * 1000) =
    1000 * ((x : ℤ) * 3600000 + (y : ℤ) * 60000 + z) by ring]
  rw [Int.mul_tdiv_cancel_left _ (by norm_num)]

/-- C8: parsing the formatted duration string of any millisecond value
    returns exactly that value (the exact-arithmetic round trip is even
    lossless, hence within the claimed one-millisecond tolerance). -/
theorem format_parse_roundtrip (v : ℕ) :
    parse_time (format_duration v) = .value v := by
  have hs := format_duration_last_not_s v
  have hm := format_duration_last_not_m v
  have hsec := pyFloat_sec ((v % 60000) / 1000) (v % 1000) (by omega)
  unfold parse_time
  rw [if_neg hs, if_neg (fun hand => hs hand.1), if_neg hm]
  by_cases hv : 0 < v / 3600000
  · have hfd : format_duration v =
        pad2 (v / 3600000) ++ ':' :: (pad2 ((v % 3600000) / 60000) ++ ':' ::
          (pad2 ((v % 60000) / 1000) ++ '.' :: pad3 (v % 1000))) := by
      unfold format_duration
      rw [if_pos hv]
    rw [hfd, if_pos (by simp), splitColon_append _ _
        (allDigits_no_colon _ (allDigits_pad2 _)),
      splitColon_append _ _ (allDigits_no_colon _ (allDigits_pad2 _)),
      splitColon_no_colon _ (sec_no_colon _ _)]
    simp only [pyFloat_pad2, hsec]
    simp only [dec_combo3, ParseOutcome.value.injEq]
    push_cast
    omega
  · have hfd : format_duration v =
        pad2 ((v % 3600000) / 60000) ++ ':' ::
          (pad2 ((v % 60000) / 1000) ++ '.' :: pad3 (v % 1000)) := by
      unfold format_duration
      rw [if_neg hv]
    rw [hfd, if_pos (by simp), splitColon_append _ _
        (allDigits_no_colon _ (allDigits_pad2 _)),
      splitColon_no_colon _ (sec_no_colon _ _)]
    simp only [pyFloat_pad2, hsec]
    simp only [dec_combo2, ParseOutcome.value.injEq]
    push_cast
    omega
